import Mathlib

/-!
Verification development for the subway-crowding data pipeline
(`data_preprocessing.py`, `app.py`).

The pipeline is embedded shallowly:
  - a pandas DataFrame is a list of column names plus a list of rows, where a
    cell is either a textual value (as read from the CSV) or a numeric value
    (after `pd.to_numeric`, with `none` standing for NaN);
  - floats are modelled as rationals;
  - the in-place column mutation of `to_tidy_long` is modelled by a small
    heap of tables, so that the no-mutation claim about the input table is a
    real statement about which heap slot the code writes;
  - sorts performed by pandas are modelled as stable sorts by the same keys
    (pandas' multi-key `sort_values` is a stable lexsort; single-key sorts
    are modelled with the same deterministic stable semantics).
-/

/-! ## Character and string helpers (Python `str.strip`, digits) -/

/-- Whitespace test used for Python's `str.strip` and the regex class. -/
def isPySpace (c : Char) : Bool := c.isWhitespace

/-- Strip leading and trailing whitespace from a character list. -/
def stripL (l : List Char) : List Char :=
  ((l.dropWhile isPySpace).reverse.dropWhile isPySpace).reverse

/-- Python `str.strip()`. -/
def pyStrip (s : String) : String := ⟨stripL s.data⟩

/-- Numeric value of a run of ASCII digits (most significant first). -/
def digitsVal (l : List Char) : Nat :=
  l.foldl (fun a c => 10 * a + (c.toNat - 48)) 0

/-- Python `f"{n:02d}"` for the values that occur here (`n < 100`). -/
def pad2 (n : Nat) : String :=
  if n < 10 then "0" ++ Nat.repr n else Nat.repr n

/-! ## Time-column pattern (`TIME_COL_RE` and `_timecol_to_hhmm`)

`TIME_COL_RE = ^\s*\d{1,2}시\d{2}분\s*$` and the regex inside
`_timecol_to_hhmm` (`^(\d{1,2})시(\d{2})분$` after `strip`) accept exactly
the same strings and extract the same digit groups, so one parser models
both: strip surrounding whitespace, one or two digits, `시`, exactly two
digits, `분`, nothing else.  (`\d` is modelled as ASCII digits; the data's
column names use only those.)  Greedy digit runs are faithful because the
markers `시`/`분` are not digits, so the regex cannot match with a shorter
digit run than the maximal one. -/

/-- Parse a time-column name into its (hour, minute) digit groups. -/
def parseTimeCol (s : String) : Option (Nat × Nat) :=
  let l := stripL s.data
  let d1 := l.takeWhile Char.isDigit
  let r1 := l.dropWhile Char.isDigit
  if d1.length = 0 ∨ 2 < d1.length then none
  else if r1.head? = some '시' then
    let r2 := r1.tail
    let d2 := r2.takeWhile Char.isDigit
    let r3 := r2.dropWhile Char.isDigit
    if d2.length = 2 ∧ r3 = ['분'] then some (digitsVal d1, digitsVal d2) else none
  else none

/-- Column classifier `TIME_COL_RE.match(c)`. -/
def isTimeCol (c : String) : Bool := (parseTimeCol c).isSome

/-- Rendering of `_timecol_to_hhmm`: the canonical zero-padded label. -/
def hhmmLabel (h m : Nat) : String := pad2 h ++ ":" ++ pad2 m

/-- Source `_timecol_to_hhmm`: strip, match, and render `f"{hh:02d}:{mm:02d}"`.
Returns `none` where the source raises `ValueError`. -/
def timecol_to_hhmm (col : String) : Option String :=
  (parseTimeCol col).map (fun p => hhmmLabel p.1 p.2)

/-! ## Cell cleaning (`to_tidy_long` lines 61-68) -/

/-- Decimal-literal parser modelling `pd.to_numeric(..., errors="coerce")` on
an already-stripped token: optional sign, an integer part and an optional
fractional part (at least one digit in total).  Unparseable input is `none`,
never an error. -/
def parseUnsigned (l : List Char) : Option ℚ :=
  let ip := l.takeWhile Char.isDigit
  let r := l.dropWhile Char.isDigit
  match r with
  | [] => if ip.length = 0 then none else some ((digitsVal ip : Nat) : ℚ)
  | '.' :: fp =>
    if fp.all Char.isDigit ∧ 0 < ip.length + fp.length then
      some (((digitsVal ip : Nat) : ℚ) + ((digitsVal fp : Nat) : ℚ) / ((10 : ℚ) ^ fp.length))
    else none
  | _ => none

/-- Signed numeric coercion (`pd.to_numeric` with `errors="coerce"`). -/
def parseNumeric (s : String) : Option ℚ :=
  match s.data with
  | '+' :: r => parseUnsigned r
  | '-' :: r => (parseUnsigned r).map (fun q => -q)
  | l => parseUnsigned l

/-- The per-cell cleaning of `to_tidy_long`:
`astype(str).str.strip()`, `replace({"": nan, "nan": nan, "None": nan})`,
then `pd.to_numeric(errors="coerce")`.  Total: a bad cell becomes `none`. -/
def cleanCell (s : String) : Option ℚ :=
  let t := pyStrip s
  if t = "" then none
  else if t = "nan" then none
  else if t = "None" then none
  else parseNumeric t

/-! ## DataFrame model -/

/-- A cell of a table: textual (as decoded from the CSV; a missing cell
rendered by `astype(str)` appears as the text `"nan"`) or numeric after
`pd.to_numeric` (`none` = NaN). -/
inductive Cell where
  | s (v : String)
  | q (v : Option ℚ)
deriving Repr, DecidableEq

/-- Cleaning one cell in place.  On a textual cell this is the full
`astype(str) → strip → replace → to_numeric` chain; a cell that is already
numeric is re-rendered and re-parsed by that chain to the same value. -/
def cleanCellC : Cell → Cell
  | .s v => .q (cleanCell v)
  | .q v => .q v

/-- The textual content of a cell (identity columns are textual). -/
def cellStr : Cell → String
  | .s v => v
  | .q _ => ""

/-- The numeric content of a cell as the melt step reads it (time columns
have been converted by the cleaning loop before the melt). -/
def cellVal : Cell → Option ℚ
  | .q v => v
  | .s v => cleanCell v

/-- A wide-format table: column names in file order, rows of cells. -/
structure RawTable where
  cols : List String
  rows : List (List Cell)
deriving Repr, DecidableEq

instance : Inhabited RawTable := ⟨⟨[], []⟩⟩

/-- First index of a column name (`df[c]` column lookup). -/
def colIdx (cols : List String) (c : String) : Option Nat :=
  match cols with
  | [] => none
  | x :: xs => if x = c then some 0 else (colIdx xs c).map (· + 1)

/-- Read the cell of `row` under column `c` of `t`. -/
def getCol (t : RawTable) (c : String) (row : List Cell) : Cell :=
  match colIdx t.cols c with
  | some i => row.getD i (Cell.s "")
  | none => Cell.s ""

/-- Python dict built by `{c: i for i, c in enumerate(l)}` looked up at `c`:
the index of the last occurrence of `c` (later writes win). -/
def dictIndexAux (c : String) : List String → Nat → Option Nat
  | [], _ => none
  | x :: xs, i =>
    match dictIndexAux c xs (i + 1) with
    | some j => some j
    | none => if x = c then some i else none

/-- Lookup in the enumeration dict (`time_order_map`). -/
def dictIndex (l : List String) (c : String) : Option Nat := dictIndexAux c l 0

/-! ## Tidy records -/

/-- One row of the tidy table (schema of §3 of the spec, order of the
column selection at the end of `to_tidy_long`). -/
structure TidyRow where
  day_type : String
  line : String
  station_code : String
  station_name : String
  direction : String
  time_label : String
  time_order : Nat
  crowding : Option ℚ
deriving Repr, DecidableEq

/-- The five-key sort key of `to_tidy_long`'s final
`sort_values(["day_type", "line", "station_code", "direction", "time_order"])`,
as a lexicographic product. -/
def rowKey (r : TidyRow) : Lex (String × Lex (String × Lex (String × Lex (String × Nat)))) :=
  toLex (r.day_type, toLex (r.line, toLex (r.station_code, toLex (r.direction, r.time_order))))

/-- Boolean comparison for the tidy sort: lexicographic on the five keys,
with strings compared by code points (Python/pandas string order).  Written
over `String.data` so that it evaluates on concrete tables; the lemma
`tidyLe_iff` states that it decides exactly the `rowKey` order. -/
def tidyLe (a b : TidyRow) : Bool :=
  if a.day_type = b.day_type then
    if a.line = b.line then
      if a.station_code = b.station_code then
        if a.direction = b.direction then decide (a.time_order ≤ b.time_order)
        else decide (a.direction.data < b.direction.data)
      else decide (a.station_code.data < b.station_code.data)
    else decide (a.line.data < b.line.data)
  else decide (a.day_type.data < b.day_type.data)

/-! ## Stable sort (pandas `sort_values`) -/

/-- Insert an element after every already-placed element that compares
less-or-equal, keeping equal elements in insertion order. -/
def insertLe {α : Type} (le : α → α → Bool) (a : α) : List α → List α
  | [] => [a]
  | b :: l => if le b a then b :: insertLe le a l else a :: b :: l

/-- Stable insertion sort: elements are inserted in their original order,
so elements with equal keys keep their relative order. -/
def isortBy {α : Type} (le : α → α → Bool) (l : List α) : List α :=
  l.foldl (fun acc a => insertLe le a acc) []

/-! ## `to_tidy_long` -/

/-- The five required identity columns (`base_cols`). -/
def base_cols : List String := ["요일구분", "호선", "역번호", "출발역", "상하구분"]

/-- Replace column `c` of `t` by its cleaned cells
(the loop body `df[c] = clean(df[c])`). -/
def cleanColumn (t : RawTable) (c : String) : RawTable :=
  match colIdx t.cols c with
  | some i => ⟨t.cols, t.rows.map (fun row => row.set i (cleanCellC (row.getD i (Cell.s ""))))⟩
  | none => t

/-- The time columns of a raw table, in original left-to-right order. -/
def timeCols (raw : RawTable) : List String := raw.cols.filter isTimeCol

/-- The whole cleaning loop over the time columns. -/
def cleanTable (raw : RawTable) : RawTable :=
  (timeCols raw).foldl cleanColumn raw

/-- The `melt` of the cleaned table plus the label/order maps, the column
renames and the `station_code` strip: one tidy row per time column and raw
row, with pandas' melt order (all rows of the first value column, then all
rows of the second, ...). -/
def meltRows (df : RawTable) (tcs : List String) : List TidyRow :=
  tcs.flatMap (fun c =>
    df.rows.map (fun row =>
      { day_type := cellStr (getCol df "요일구분" row)
        line := cellStr (getCol df "호선" row)
        station_code := pyStrip (cellStr (getCol df "역번호" row))
        station_name := cellStr (getCol df "출발역" row)
        direction := cellStr (getCol df "상하구분" row)
        time_label := (timecol_to_hhmm c).getD ""
        time_order := (dictIndex tcs c).getD 0
        crowding := cellVal (getCol df c row) }))

/-- The tidy rows produced for a raw table before the final sort. -/
def meltPre (raw : RawTable) : List TidyRow :=
  meltRows (cleanTable raw) (timeCols raw)

/-- A heap of tables; variables of the Python function hold addresses into
it, and `df[c] = ...` statements are writes at the held address. -/
structure TableHeap where
  tables : List RawTable
deriving Repr, DecidableEq

/-- Read the table at address `a`. -/
def TableHeap.read (m : TableHeap) (a : Nat) : RawTable := m.tables.getD a default

/-- Overwrite the table at address `a`. -/
def TableHeap.write (m : TableHeap) (a : Nat) (t : RawTable) : TableHeap :=
  ⟨m.tables.set a t⟩

/-- Allocate a fresh table (`df_raw.copy()` allocates), returning its
address. -/
def TableHeap.alloc (m : TableHeap) (t : RawTable) : TableHeap × Nat :=
  (⟨m.tables ++ [t]⟩, m.tables.length)

/-- Source `to_tidy_long`, statement by statement, over the heap: check the
identity columns, detect time columns, `df = df_raw.copy()` (a fresh
allocation), the cleaning loop's writes to `df`, then melt, maps, renames,
strip, stable five-key sort and re-index.  The `Except.error` cases are the
two `ValueError`s. -/
def to_tidy_long_mem (m : TableHeap) (a : Nat) : TableHeap × Except String (List TidyRow) :=
  let df_raw := m.read a
  let missing := base_cols.filter (fun c => !(decide (c ∈ df_raw.cols)))
  if missing.isEmpty then
    let tcs := df_raw.cols.filter isTimeCol
    if tcs.isEmpty then
      (m, Except.error "시간대 컬럼이 탐지되지 않았습니다")
    else
      let (m1, ad) := m.alloc df_raw
      let m2 := tcs.foldl (fun mm c => mm.write ad (cleanColumn (mm.read ad) c)) m1
      (m2, Except.ok (isortBy tidyLe (meltRows (m2.read ad) tcs)))
  else
    (m, Except.error "필수 컬럼 누락")

/-- The pure view of `to_tidy_long`: run the body on a heap holding only the
input table. -/
def to_tidy_long (raw : RawTable) : Except String (List TidyRow) :=
  (to_tidy_long_mem ⟨[raw]⟩ 0).2

/-! ## Quality report (`quality_report`, `print_report`) -/

/-- The six-column duplicate key of the quality check. -/
def key6 (r : TidyRow) : String × String × String × String × String × String :=
  (r.day_type, r.line, r.station_code, r.station_name, r.direction, r.time_label)

/-- The five-column group key of the degenerate-group check (and of
`g.size()`). -/
def gkey5 (r : TidyRow) : String × String × String × String × String :=
  (r.day_type, r.line, r.station_code, r.station_name, r.direction)

/-- Count of rows marked by `tidy.duplicated(key_cols)`: every row whose
six-key already occurred above it. -/
def dupCountAux : List (String × String × String × String × String × String) → List TidyRow → Nat
  | _, [] => 0
  | seen, r :: rs =>
    (if key6 r ∈ seen then 1 else 0) + dupCountAux (key6 r :: seen) rs

/-- Source `int(tidy.duplicated(key_cols).sum())`. -/
def dupCount (t : List TidyRow) : Nat := dupCountAux [] t

/-- Source `int((tidy["crowding"] < 0).sum())` (NaN compares false). -/
def negCount (t : List TidyRow) : Nat :=
  t.countP (fun r =>
    match r.crowding with
    | some q => decide (q < 0)
    | none => false)

/-- Source `int((tidy["crowding"] > 200).sum())` (NaN compares false). -/
def over200Count (t : List TidyRow) : Nat :=
  t.countP (fun r =>
    match r.crowding with
    | some q => decide (200 < q)
    | none => false)

/-- Distinct values in first-occurrence order (`Series.unique()`; also the
set of group keys of a `groupby`). -/
def distinctList {α : Type} [DecidableEq α] (l : List α) : List α :=
  l.foldl (fun acc k => if k ∈ acc then acc else acc ++ [k]) []

/-- The rows of `t` that fall in the group of key `k`. -/
def groupRows (t : List TidyRow) (k : String × String × String × String × String) : List TidyRow :=
  t.filter (fun r => decide (gkey5 r = k))

/-- One group's test in the degenerate-group check, exactly as coded:
`s.notna().all() and (s == 0).all()` (a NaN fails both conjuncts). -/
def groupAllZero (vals : List (Option ℚ)) : Bool :=
  vals.all (fun v => v.isSome) && vals.all (fun v => decide (v = some 0))

/-- Source count of all-time-zero (station, direction) groups: the number of
five-key groups whose crowding series passes `groupAllZero`. -/
def allZeroGroupCount (t : List TidyRow) : Nat :=
  (distinctList (t.map gkey5)).countP (fun k => groupAllZero ((groupRows t k).map (fun r => r.crowding)))

/-- NaN-skipping mean of a crowding series (`Series.mean()`); `none` when
every value is missing (pandas' NaN result). -/
def meanOpt (vals : List (Option ℚ)) : Option ℚ :=
  let vs := vals.filterMap id
  if vs.isEmpty then none else some (vs.sum / (vs.length : ℚ))

/-- String comparison used by Python's `sorted` over column values
(code-point lexicographic, as in the source locale's data). -/
def strLe (a b : String) : Bool := decide (a.data ≤ b.data)

/-- Rational comparison for sorting a numeric series ascending. -/
def ratLe (a b : ℚ) : Bool := decide (a ≤ b)

/-- NaN-skipping minimum (`Series.min()`). -/
def minOpt (vals : List (Option ℚ)) : Option ℚ :=
  (vals.filterMap id).foldl
    (fun acc x => match acc with | none => some x | some m => some (min m x)) none

/-- NaN-skipping maximum (`Series.max()`). -/
def maxOpt (vals : List (Option ℚ)) : Option ℚ :=
  (vals.filterMap id).foldl
    (fun acc x => match acc with | none => some x | some m => some (max m x)) none

/-- NaN-skipping median (`Series.median()`): middle of the sorted non-null
values, or the mean of the two middle ones. -/
def medianOpt (vals : List (Option ℚ)) : Option ℚ :=
  let vs := isortBy ratLe (vals.filterMap id)
  let n := vs.length
  if n = 0 then none
  else if n % 2 = 1 then some (vs.getD (n / 2) 0)
  else some ((vs.getD (n / 2 - 1) 0 + vs.getD (n / 2) 0) / 2)

/-- The rounding of `round(x, 4)` (modelled as nearest; no claim depends on
the tie-breaking style). -/
def round4 (q : ℚ) : ℚ := (round (q * 10000) : ℤ) / 10000

/-- The quality-report record (the wall-clock `timestamp` field is not
modelled). -/
structure QualityReport where
  rows_tidy : Nat
  unique_stations : Nat
  unique_station_direction_combinations : Nat
  day_types : List String
  lines : List String
  directions : List String
  duplicate_key_rows : Nat
  crowding_nan_count : Nat
  crowding_nan_rate : Option ℚ
  negative_crowding_count : Nat
  crowding_over_200_count : Nat
  all_time_zero_station_direction_rows : Nat
  stats_min : Option ℚ
  stats_max : Option ℚ
  stats_mean : Option ℚ
  stats_median : Option ℚ
deriving Repr, DecidableEq

/-- Source `quality_report`. -/
def quality_report (t : List TidyRow) : QualityReport :=
  let crowd := t.map (fun r => r.crowding)
  let nanCnt := t.countP (fun r => r.crowding.isNone)
  { rows_tidy := t.length
    unique_stations := (distinctList (t.map (fun r => (r.station_code, r.station_name)))).length
    unique_station_direction_combinations := (distinctList (t.map gkey5)).length
    day_types := distinctList (t.map (fun r => r.day_type))
    lines := isortBy strLe (distinctList (t.map (fun r => r.line)))
    directions := isortBy strLe (distinctList (t.map (fun r => r.direction)))
    duplicate_key_rows := dupCount t
    crowding_nan_count := nanCnt
    crowding_nan_rate := if t.isEmpty then none else some (round4 ((nanCnt : ℚ) / (t.length : ℚ)))
    negative_crowding_count := negCount t
    crowding_over_200_count := over200Count t
    all_time_zero_station_direction_rows := allZeroGroupCount t
    stats_min := minOpt crowd
    stats_max := maxOpt crowd
    stats_mean := meanOpt crowd
    stats_median := medianOpt crowd }

/-- The Phase 1 completion verdict computed by `print_report`
(lines 191-194): duplicates and negatives must both be zero. -/
def phase1_passed (r : QualityReport) : Bool :=
  r.duplicate_key_rows == 0 && r.negative_crowding_count == 0

/-! ## Aggregation engine (`app.py`) -/

/-- Morning rush-hour labels (`RUSH_HOUR_MORNING`). -/
def RUSH_HOUR_MORNING : List String := ["07:30", "08:00", "08:30", "09:00", "09:30"]

/-- Evening rush-hour labels (`RUSH_HOUR_EVENING`). -/
def RUSH_HOUR_EVENING : List String := ["17:30", "18:00", "18:30", "19:00", "19:30"]

/-- First row holding the maximum non-null crowding of a group
(`Series.idxmax()` reached through `group.loc[...]`); `none` when every
value is missing. -/
def idxmaxRow (g : List TidyRow) : Option TidyRow :=
  g.foldl
    (fun acc r =>
      match r.crowding with
      | none => acc
      | some q =>
        match acc with
        | none => some r
        | some b =>
          match b.crowding with
          | some qb => if qb < q then some r else acc
          | none => some r)
    none

/-- First key of an association list holding the maximum non-null value
(`Series.idxmax()` over a grouped mean series). -/
def idxmaxAssoc (l : List (String × Option ℚ)) : Option String :=
  l.foldl
    (fun acc p =>
      match p.2 with
      | none => acc
      | some q =>
        match acc with
        | none => some (p.1, q)
        | some b => if b.2 < q then some (p.1, q) else acc)
    (none : Option (String × ℚ)) |>.map (fun b => b.1)

/-- Maximum non-null value of an association list's values
(`Series.max()`). -/
def maxAssoc (l : List (String × Option ℚ)) : Option ℚ :=
  maxOpt (l.map (fun p => p.2))

/-- The KPI record returned by `calculate_kpi` on a non-empty selection. -/
structure KPI where
  avg_crowding : Option ℚ
  max_station : Option String
  max_crowding : Option ℚ
  peak_time : Option String
  total_stations : Nat
  morning_avg : Option ℚ
  evening_avg : Option ℚ
deriving Repr, DecidableEq

/-- The filter of `calculate_kpi` (and of the heatmap): day, line and
direction must match. -/
def kpiFilter (df : List TidyRow) (d l dir : String) : List TidyRow :=
  df.filter (fun r => decide (r.day_type = d ∧ r.line = l ∧ r.direction = dir))

/-- Grouped means by a string key drawn from each row, keys in sorted order
(pandas `groupby` iterates keys ascending). -/
def groupMeansBy (key : TidyRow → String) (rows : List TidyRow) : List (String × Option ℚ) :=
  (isortBy strLe (distinctList (rows.map key))).map
    (fun k => (k, meanOpt ((rows.filter (fun r => decide (key r = k))).map (fun r => r.crowding))))

/-- Source `calculate_kpi`: `None` when the filter matches nothing,
otherwise the populated record; the morning/evening averages fall back to
`0` (not NaN) when the rush window matches no rows. -/
def calculate_kpi (df : List TidyRow) (d l dir : String) : Option KPI :=
  let filtered := kpiFilter df d l dir
  if filtered.isEmpty then none
  else
    let station_avg := groupMeansBy (fun r => r.station_name) filtered
    let time_avg := groupMeansBy (fun r => r.time_label) filtered
    let morning_data := filtered.filter (fun r => decide (r.time_label ∈ RUSH_HOUR_MORNING))
    let evening_data := filtered.filter (fun r => decide (r.time_label ∈ RUSH_HOUR_EVENING))
    some
      { avg_crowding := meanOpt (filtered.map (fun r => r.crowding))
        max_station := idxmaxAssoc station_avg
        max_crowding := maxAssoc station_avg
        peak_time := idxmaxAssoc time_avg
        total_stations := (distinctList (filtered.map (fun r => r.station_name))).length
        morning_avg := if morning_data.isEmpty then some 0 else meanOpt (morning_data.map (fun r => r.crowding))
        evening_avg := if evening_data.isEmpty then some 0 else meanOpt (evening_data.map (fun r => r.crowding)) }

/-- One entry of the ranking table.  The `rank` column is inserted only
after sorting and truncation; while grouping it carries the placeholder
`0`. -/
structure RankEntry where
  rank : Nat
  station_name : String
  line : String
  direction : String
  avg_crowding : Option ℚ
  peak_time : String
deriving Repr, DecidableEq

/-- The (station, line, direction) group key of the ranking. -/
def rkey (e : RankEntry) : String × String × String := (e.station_name, e.line, e.direction)

/-- Lexicographic comparison of group keys, the order in which pandas
`groupby` iterates key tuples. -/
def key3Le (a b : String × String × String) : Bool :=
  decide (toLex (a.1, toLex (a.2.1, a.2.2)) ≤ toLex (b.1, toLex (b.2.1, b.2.2)))

/-- The filtered rows the ranking runs on: the whole day for `all_day`,
otherwise the day restricted to the morning or evening label set. -/
def rushRows (df : List TidyRow) (day ty : String) : List TidyRow :=
  if ty = "all_day" then df.filter (fun r => decide (r.day_type = day))
  else
    let labels := if ty = "morning" then RUSH_HOUR_MORNING else RUSH_HOUR_EVENING
    df.filter (fun r => decide (r.day_type = day ∧ r.time_label ∈ labels))

/-- One iteration of `calculate_rush_hour_ranking`'s grouping loop.  The
source computes `peak_idx = group['crowding'].idxmax()`; on a group whose
crowding values are all missing, `idxmax` yields `nan` and the following
`group.loc[peak_idx, 'time_label']` raises `KeyError` — modelled as the
error case. -/
def rush_group_entry (rush : List TidyRow) (k : String × String × String) :
    Except String RankEntry :=
  let g := rush.filter (fun r => decide ((r.station_name, r.line, r.direction) = k))
  match idxmaxRow g with
  | none => Except.error "KeyError: nan"
  | some peak =>
    Except.ok
      { rank := 0
        station_name := k.1
        line := k.2.1
        direction := k.2.2
        avg_crowding := meanOpt (g.map (fun r => r.crowding))
        peak_time := peak.time_label }

/-- The grouping loop itself: entries are appended group by group, and the
loop aborts with the first group's `KeyError`. -/
def collectEntries (rush : List TidyRow) :
    List (String × String × String) → Except String (List RankEntry)
  | [] => Except.ok []
  | k :: ks =>
    match rush_group_entry rush k with
    | Except.error e => Except.error e
    | Except.ok ent =>
      match collectEntries rush ks with
      | Except.error e => Except.error e
      | Except.ok rest => Except.ok (ent :: rest)

/-- The `grouped_data` list of `calculate_rush_hour_ranking`: one entry per
(station, line, direction) group in key order (pandas `groupby` iterates
key tuples sorted ascending), or the `KeyError` raised at the first group
whose crowding is entirely missing. -/
def rush_groups (df : List TidyRow) (day ty : String) : Except String (List RankEntry) :=
  let rush := rushRows df day ty
  collectEntries rush
    (isortBy key3Le (distinctList (rush.map (fun r => (r.station_name, r.line, r.direction)))))

/-- Descending order on mean crowding with NaN last: the comparator of
`sort_values("avg_crowding", ascending=False)` with the default
`na_position="last"`. -/
def avgDescLe (a b : Option ℚ) : Bool :=
  match a, b with
  | none, none => true
  | none, some _ => false
  | some _, none => true
  | some x, some y => decide (y ≤ x)

/-- Comparison of ranking entries by mean crowding descending. -/
def rankLe (a b : RankEntry) : Bool := avgDescLe a.avg_crowding b.avg_crowding

/-- One comparator-consistent resolution of the descending sort, followed
by `head(top_n)` and insertion of `rank = 1..len`.  The source's
single-column `sort_values` uses numpy's default quicksort, whose order on
equal keys is not specified; this executable resolution orders ties stably
and is proven below to be one admissible output, while the ranking theorem
quantifies over all of them. -/
def rankingOf (entries : List RankEntry) (top_n : Nat) : List RankEntry :=
  (((isortBy rankLe entries).take top_n).enum).map (fun p => { p.2 with rank := p.1 + 1 })

/-- The outputs the source can produce from the grouped entries: some
permutation of the entries ordered by mean crowding descending — the
unstable sort fixes no order among equal means — truncated to `top_n`,
with ranks `1..len` inserted. -/
def ranking_admissible (entries : List RankEntry) (top_n : Nat) (res : List RankEntry) : Prop :=
  ∃ s : List RankEntry, List.Perm s entries
    ∧ s.Pairwise (fun a b => rankLe a b = true)
    ∧ res = ((s.take top_n).enum).map (fun p => { p.2 with rank := p.1 + 1 })

/-- Source `calculate_rush_hour_ranking`: empty result on an empty filter,
otherwise group (propagating the `KeyError` of a group whose crowding is
all missing), sort by mean crowding descending, truncate to `top_n`, and
insert ranks. -/
def calculate_rush_hour_ranking (df : List TidyRow) (day ty : String) (top_n : Nat) :
    Except String (List RankEntry) :=
  if (rushRows df day ty).isEmpty then Except.ok []
  else
    match rush_groups df day ty with
    | Except.error e => Except.error e
    | Except.ok entries => Except.ok (rankingOf entries top_n)

/-- Degenerate-group count as the examined claim words it ("every non-null
crowding value across the full time axis is exactly zero").  This definition
follows the claim's words, not the code, and exists only to be compared
with the coded `allZeroGroupCount`. -/
def allZeroGroups_specClaim (t : List TidyRow) : Nat :=
  (distinctList (t.map gkey5)).countP
    (fun k => decide (∀ r ∈ t, gkey5 r = k → (r.crowding = none ∨ r.crowding = some 0)))

/-! ## Concrete tables used by witnesses and counterexamples -/

/-- The raw row of the spec's scenario: identity columns plus the columns
`"7시30분"` and `"8시0분"`. -/
def scenarioRaw : RawTable :=
  ⟨["요일구분", "호선", "역번호", "출발역", "상하구분", "7시30분", "8시0분"],
   [[Cell.s "평일", Cell.s "2호선", Cell.s "222", Cell.s "강남", Cell.s "내선",
     Cell.s "150", Cell.s "180"]]⟩

/-- A two-row, two-time-column raw table. -/
def demoRawA : RawTable :=
  ⟨["요일구분", "호선", "역번호", "출발역", "상하구분", "7시30분", "18시00분"],
   [[Cell.s "평일", Cell.s "2호선", Cell.s "222", Cell.s "강남", Cell.s "내선",
     Cell.s "150", Cell.s "90"],
    [Cell.s "평일", Cell.s "2호선", Cell.s "211", Cell.s "역삼", Cell.s "내선",
     Cell.s "80", Cell.s ""]]⟩

/-- The tidy output of `demoRawA` (sorted by the five keys, blank cell
cleaned to `none`). -/
def demoTidyA : List TidyRow :=
  [⟨"평일", "2호선", "211", "역삼", "내선", "07:30", 0, some 80⟩,
   ⟨"평일", "2호선", "211", "역삼", "내선", "18:00", 1, none⟩,
   ⟨"평일", "2호선", "222", "강남", "내선", "07:30", 0, some 150⟩,
   ⟨"평일", "2호선", "222", "강남", "내선", "18:00", 1, some 90⟩]

/-- A tidy group whose crowding series is a zero and a missing value. -/
def zeroNullT : List TidyRow :=
  [⟨"평일", "2호선", "222", "강남", "내선", "07:30", 0, some 0⟩,
   ⟨"평일", "2호선", "222", "강남", "내선", "08:00", 1, none⟩]

/-- A tidy group whose crowding series is entirely zero. -/
def allZeroT : List TidyRow :=
  [⟨"평일", "2호선", "222", "강남", "내선", "07:30", 0, some 0⟩,
   ⟨"평일", "2호선", "222", "강남", "내선", "08:00", 1, some 0⟩]

/-- A one-row tidy table whose only time label lies outside both rush
windows. -/
def kpiDemo : List TidyRow :=
  [⟨"평일", "2호선", "222", "강남", "내선", "10:00", 5, some 50⟩]

/-- A tidy table whose only rush-window group has no non-missing crowding
value. -/
def nanGroupT : List TidyRow :=
  [⟨"평일", "2호선", "222", "강남", "내선", "07:30", 0, none⟩]

/-! ## Lemmas about the stable insertion sort -/

theorem insertLe_perm {α : Type} (le : α → α → Bool) (a : α) (l : List α) :
    List.Perm (insertLe le a l) (a :: l) := by
  induction l with
  | nil => simp [insertLe]
  | cons b t ih =>
    simp only [insertLe]
    by_cases h : le b a = true
    · rw [if_pos h]
      exact (ih.cons b).trans (List.Perm.swap a b t)
    · rw [if_neg h]

theorem isortBy_aux_perm {α : Type} (le : α → α → Bool) :
    ∀ (l acc : List α),
      List.Perm (l.foldl (fun acc a => insertLe le a acc) acc) (acc ++ l)
  | [], acc => by simp
  | a :: t, acc => by
    simp only [List.foldl_cons]
    refine (isortBy_aux_perm le t (insertLe le a acc)).trans ?_
    refine ((insertLe_perm le a acc).append_right t).trans ?_
    exact List.perm_middle.symm

theorem isortBy_perm {α : Type} (le : α → α → Bool) (l : List α) :
    List.Perm (isortBy le l) l := by
  simpa [isortBy] using isortBy_aux_perm le l []

theorem pairwise_insertLe {α : Type} (le : α → α → Bool)
    (htot : ∀ a b, le a b = true ∨ le b a = true)
    (htrans : ∀ a b c, le a b = true → le b c = true → le a c = true)
    (a : α) (l : List α) (h : l.Pairwise (fun x y => le x y = true)) :
    (insertLe le a l).Pairwise (fun x y => le x y = true) := by
  induction l with
  | nil => simp [insertLe]
  | cons b t ih =>
    rcases List.pairwise_cons.mp h with ⟨hb, ht⟩
    simp only [insertLe]
    by_cases hba : le b a = true
    · rw [if_pos hba]
      refine List.pairwise_cons.mpr ⟨?_, ih ht⟩
      intro x hx
      rcases List.mem_cons.mp ((insertLe_perm le a t).mem_iff.mp hx) with rfl | hxt
      · exact hba
      · exact hb x hxt
    · rw [if_neg hba]
      have hab : le a b = true := (htot a b).resolve_right hba
      refine List.pairwise_cons.mpr ⟨?_, h⟩
      intro x hx
      rcases List.mem_cons.mp hx with rfl | hxt
      · exact hab
      · exact htrans a b x hab (hb x hxt)

theorem isortBy_aux_pairwise {α : Type} (le : α → α → Bool)
    (htot : ∀ a b, le a b = true ∨ le b a = true)
    (htrans : ∀ a b c, le a b = true → le b c = true → le a c = true) :
    ∀ (l acc : List α), acc.Pairwise (fun x y => le x y = true) →
      (l.foldl (fun acc a => insertLe le a acc) acc).Pairwise (fun x y => le x y = true)
  | [], _, h => h
  | a :: t, acc, h => by
    simp only [List.foldl_cons]
    exact isortBy_aux_pairwise le htot htrans t (insertLe le a acc)
      (pairwise_insertLe le htot htrans a acc h)

theorem isortBy_pairwise {α : Type} (le : α → α → Bool)
    (htot : ∀ a b, le a b = true ∨ le b a = true)
    (htrans : ∀ a b c, le a b = true → le b c = true → le a c = true)
    (l : List α) : (isortBy le l).Pairwise (fun x y => le x y = true) :=
  isortBy_aux_pairwise le htot htrans l [] (List.Pairwise.nil)

theorem filter_insertLe {α : Type} (le : α → α → Bool) (p : α → Bool)
    (htrans : ∀ a b c, le a b = true → le b c = true → le a c = true)
    (a : α) (l : List α) (hsort : l.Pairwise (fun x y => le x y = true))
    (hp : ∀ b, p b = true → p a = true → le b a = true) :
    (insertLe le a l).filter p = l.filter p ++ (if p a then [a] else []) := by
  induction l with
  | nil =>
    simp only [insertLe, List.filter, List.nil_append]
    by_cases hpa : p a = true
    · simp [hpa]
    · simp [Bool.eq_false_iff.mpr hpa]
  | cons b t ih =>
    rcases List.pairwise_cons.mp hsort with ⟨hb, ht⟩
    simp only [insertLe]
    by_cases hba : le b a = true
    · rw [if_pos hba]
      rw [List.filter_cons, List.filter_cons]
      by_cases hpb : p b = true
      · simp only [hpb, if_pos, ih ht, List.cons_append]
      · simp only [hpb]
        simpa using ih ht
    · rw [if_neg hba]
      by_cases hpa : p a = true
      · have hnil : t.filter p = [] := by
          refine List.filter_eq_nil_iff.mpr ?_
          intro x hx hpx
          exact hba (htrans b x a (hb x hx) (hp x hpx hpa))
        have hpbf : p b = false := by
          by_cases hpb : p b = true
          · exact absurd (hp b hpb hpa) hba
          · exact Bool.eq_false_iff.mpr hpb
        simp [List.filter_cons, hpa, hpbf, hnil]
      · have hpa' : p a = false := Bool.eq_false_iff.mpr hpa
        simp [List.filter_cons, hpa']

theorem isortBy_aux_filter {α : Type} (le : α → α → Bool) (p : α → Bool)
    (htot : ∀ a b, le a b = true ∨ le b a = true)
    (htrans : ∀ a b c, le a b = true → le b c = true → le a c = true)
    (hp : ∀ a b, p a = true → p b = true → le a b = true) :
    ∀ (l acc : List α), acc.Pairwise (fun x y => le x y = true) →
      (l.foldl (fun acc a => insertLe le a acc) acc).filter p = acc.filter p ++ l.filter p
  | [], acc, _ => by simp
  | a :: t, acc, h => by
    simp only [List.foldl_cons]
    rw [isortBy_aux_filter le p htot htrans hp t (insertLe le a acc)
      (pairwise_insertLe le htot htrans a acc h)]
    rw [filter_insertLe le p htrans a acc h (fun b hb ha => hp b a hb ha)]
    rw [List.filter_cons]
    by_cases hpa : p a = true
    · simp [hpa]
    · simp [Bool.eq_false_iff.mpr hpa]

theorem isortBy_filter {α : Type} (le : α → α → Bool) (p : α → Bool)
    (htot : ∀ a b, le a b = true ∨ le b a = true)
    (htrans : ∀ a b c, le a b = true → le b c = true → le a c = true)
    (hp : ∀ a b, p a = true → p b = true → le a b = true)
    (l : List α) : (isortBy le l).filter p = l.filter p := by
  simpa [isortBy] using isortBy_aux_filter le p htot htrans hp l [] List.Pairwise.nil

/-! ## Lemmas about characters, stripping and the time-column parser -/

theorem ws_not_digit (c : Char) (h : isPySpace c = true) : c.isDigit = false := by
  have h' : ((c = ' ' ∨ c = '\t') ∨ c = '\x0d') ∨ c = '\n' := by
    simpa [isPySpace, Char.isWhitespace, Bool.or_eq_true, decide_eq_true_eq] using h
  rcases h' with ((rfl | rfl) | rfl) | rfl <;> decide

theorem digit_not_ws (c : Char) (h : c.isDigit = true) : isPySpace c = false := by
  cases hw : isPySpace c with
  | false => rfl
  | true => rw [ws_not_digit c hw] at h; exact absurd h (by simp)

theorem dropWhile_no_head {p : Char → Bool} :
    ∀ (l : List Char), (∀ c ∈ l, p c = false) → l.dropWhile p = l
  | [], _ => rfl
  | x :: xs, h => by
    have hx : p x = false := h x (List.mem_cons_self x xs)
    simp [List.dropWhile_cons, hx]

theorem stripL_no_ws (l : List Char) (h : ∀ c ∈ l, isPySpace c = false) : stripL l = l := by
  unfold stripL
  rw [dropWhile_no_head l h]
  rw [dropWhile_no_head l.reverse (fun c hc => h c (List.mem_reverse.mp hc))]
  exact List.reverse_reverse l

theorem takeWhile_digits_append {p : Char → Bool} :
    ∀ (a : List Char) (b : Char) (r : List Char), (∀ c ∈ a, p c = true) → p b = false →
      (a ++ b :: r).takeWhile p = a ∧ (a ++ b :: r).dropWhile p = b :: r
  | [], b, r, _, hb => by simp [List.takeWhile_cons, List.dropWhile_cons, hb]
  | x :: xs, b, r, h, hb => by
    have hx : p x = true := h x (List.mem_cons_self x xs)
    have ih := takeWhile_digits_append xs b r (fun c hc => h c (List.mem_cons_of_mem x hc)) hb
    simp [List.takeWhile_cons, List.dropWhile_cons, hx, ih.1, ih.2]

/-- The parser on a string assembled from two digit groups: the match
succeeds exactly with those digit groups. -/
theorem parseTimeCol_build (s : String) (d1 d2 : List Char)
    (hs : s.data = d1 ++ '시' :: (d2 ++ ['분']))
    (h1 : ∀ c ∈ d1, c.isDigit = true) (hl1 : 1 ≤ d1.length) (hl2 : d1.length ≤ 2)
    (h2 : ∀ c ∈ d2, c.isDigit = true) (hl3 : d2.length = 2) :
    parseTimeCol s = some (digitsVal d1, digitsVal d2) := by
  have hnows : ∀ c ∈ s.data, isPySpace c = false := by
    intro c hc
    rw [hs] at hc
    rcases List.mem_append.mp hc with hc1 | hc2
    · exact digit_not_ws c (h1 c hc1)
    · rcases List.mem_cons.mp hc2 with rfl | hc3
      · decide
      · rcases List.mem_append.mp hc3 with hc4 | hc5
        · exact digit_not_ws c (h2 c hc4)
        · rcases List.mem_cons.mp hc5 with rfl | hc6
          · decide
          · exact absurd hc6 (List.not_mem_nil c)
  have hstrip : stripL s.data = d1 ++ '시' :: (d2 ++ ['분']) := by
    rw [stripL_no_ws s.data hnows, hs]
  have htw1 := takeWhile_digits_append d1 '시' (d2 ++ ['분']) h1 (by decide)
  have htw2 := takeWhile_digits_append d2 '분' [] h2 (by decide)
  have hcond : ¬ (d1.length = 0 ∨ 2 < d1.length) := by omega
  unfold parseTimeCol
  rw [hstrip]
  simp only [htw1.1, htw1.2, List.head?_cons, List.tail_cons, htw2.1, htw2.2]
  rw [if_neg hcond]
  simp [hl3]

/-- Decimal rendering facts for one-or-two-digit numbers (the hour part as
Python prints it). -/
theorem repr_digits :
    ∀ h : Nat, h < 100 →
      ((Nat.repr h).data.all Char.isDigit = true ∧ 1 ≤ (Nat.repr h).data.length ∧
        (Nat.repr h).data.length ≤ 2 ∧ digitsVal (Nat.repr h).data = h) := by
  decide

/-- Zero-padding facts for the two-digit minute part. -/
theorem pad2_digits :
    ∀ m : Nat, m < 100 →
      ((pad2 m).data.all Char.isDigit = true ∧ (pad2 m).data.length = 2 ∧
        digitsVal (pad2 m).data = m) := by
  decide

/-! ## Lemmas about the enumeration dict -/

theorem dictIndexAux_not_mem (c : String) :
    ∀ (l : List String) (i : Nat), c ∉ l → dictIndexAux c l i = none
  | [], _, _ => rfl
  | x :: xs, i, h => by
    have hx : x ≠ c := fun e => h (e ▸ List.mem_cons_self x xs)
    have hxs : c ∉ xs := fun e => h (List.mem_cons_of_mem x e)
    simp [dictIndexAux, dictIndexAux_not_mem c xs (i + 1) hxs, hx]

theorem dictIndexAux_get (l : List String) (hnd : l.Nodup) :
    ∀ (off i : Nat) (h : i < l.length),
      dictIndexAux (l.get ⟨i, h⟩) l off = some (off + i) := by
  induction l with
  | nil => intro off i h; exact absurd h (by simp)
  | cons x xs ih =>
    intro off i h
    rcases List.nodup_cons.mp hnd with ⟨hx, hxs⟩
    match i with
    | 0 =>
      have : x ∉ xs := hx
      simp [dictIndexAux, dictIndexAux_not_mem x xs (off + 1) this]
    | Nat.succ j =>
      have hj : j < xs.length := Nat.lt_of_succ_lt_succ h
      have : (x :: xs).get ⟨j + 1, h⟩ = xs.get ⟨j, hj⟩ := rfl
      rw [this]
      simp only [dictIndexAux, ih hxs (off + 1) j hj]
      exact congrArg some (by omega)


theorem dictIndex_get (l : List String) (hnd : l.Nodup) (i : Nat) (h : i < l.length) :
    dictIndex l (l.get ⟨i, h⟩) = some i := by
  simpa using dictIndexAux_get l hnd 0 i h

theorem dictIndexAux_mem (c : String) :
    ∀ (l : List String) (i : Nat), c ∈ l →
      ∃ j, dictIndexAux c l i = some j ∧ i ≤ j ∧ j < i + l.length
  | [], _, h => absurd h (List.not_mem_nil c)
  | x :: xs, i, h => by
    by_cases hxs : c ∈ xs
    · obtain ⟨j, hj, hij, hjl⟩ := dictIndexAux_mem c xs (i + 1) hxs
      refine ⟨j, ?_, by omega, by simpa using by omega⟩
      simp [dictIndexAux, hj]
    · have hx : x = c := by
        rcases List.mem_cons.mp h with rfl | hmem
        · rfl
        · exact absurd hmem hxs
      refine ⟨i, ?_, Nat.le_refl i, by simp⟩
      simp [dictIndexAux, dictIndexAux_not_mem c xs (i + 1) hxs, hx]

theorem dictIndex_mem (c : String) (l : List String) (h : c ∈ l) :
    ∃ j, dictIndex l c = some j ∧ j < l.length := by
  obtain ⟨j, hj, _, hjl⟩ := dictIndexAux_mem c l 0 h
  exact ⟨j, hj, by simpa using hjl⟩

/-! ## Lemmas about the table heap and the tidy pipeline -/

theorem TableHeap.read_write_ne (m : TableHeap) (a b : Nat) (t : RawTable) (h : a ≠ b) :
    (m.write b t).read a = m.read a := by
  simp [TableHeap.read, TableHeap.write, List.getD_eq_getElem?_getD, List.getElem?_set_ne (Ne.symm h)]

theorem TableHeap.read_write_self (m : TableHeap) (a : Nat) (t : RawTable)
    (h : a < m.tables.length) :
    (m.write a t).read a = t := by
  simp [TableHeap.read, TableHeap.write, List.getD_eq_getElem?_getD, List.getElem?_set_self, h]

theorem TableHeap.write_length (m : TableHeap) (a : Nat) (t : RawTable) :
    (m.write a t).tables.length = m.tables.length := by
  simp [TableHeap.write]

theorem cleanFold_read_other (cs : List String) (a ad : Nat) (hne : a ≠ ad) :
    ∀ (m : TableHeap),
      ((cs.foldl (fun mm c => mm.write ad (cleanColumn (mm.read ad) c)) m).read a) = m.read a := by
  induction cs with
  | nil => intro m; rfl
  | cons c cs ih =>
    intro m
    rw [List.foldl_cons, ih]
    exact TableHeap.read_write_ne m a ad _ hne

theorem cleanFold_read_self (cs : List String) (ad : Nat) :
    ∀ (m : TableHeap), ad < m.tables.length →
      ((cs.foldl (fun mm c => mm.write ad (cleanColumn (mm.read ad) c)) m).read ad) =
        cs.foldl cleanColumn (m.read ad) := by
  induction cs with
  | nil => intro m _; rfl
  | cons c cs ih =>
    intro m hlt
    rw [List.foldl_cons, List.foldl_cons]
    rw [ih _ (by rw [TableHeap.write_length]; exact hlt)]
    rw [TableHeap.read_write_self m ad _ hlt]

/-- Characterization of a successful run of `to_tidy_long`: the identity
columns are present, at least one time column is detected, and the result is
the stable five-key sort of the melted, cleaned table. -/
theorem to_tidy_long_ok_iff (raw : RawTable) (t : List TidyRow) :
    to_tidy_long raw = Except.ok t ↔
      ((base_cols.filter (fun c => !(decide (c ∈ raw.cols)))).isEmpty = true ∧
        (timeCols raw).isEmpty = false ∧
        t = isortBy tidyLe (meltPre raw)) := by
  have hread0 : (TableHeap.mk [raw]).read 0 = raw := rfl
  unfold to_tidy_long to_tidy_long_mem
  rw [hread0]
  by_cases h1 : (base_cols.filter (fun c => !(decide (c ∈ raw.cols)))).isEmpty = true
  · rw [if_pos h1]
    by_cases h2 : (raw.cols.filter isTimeCol).isEmpty = true
    · simp only [h2, if_pos, TableHeap.alloc]
      simp [timeCols, h1, h2]
    · have h2' : (raw.cols.filter isTimeCol).isEmpty = false := by
        cases hv : (raw.cols.filter isTimeCol).isEmpty
        · rfl
        · exact absurd hv h2
      rw [if_neg (by rw [h2']; exact Bool.false_ne_true)]
      simp only [TableHeap.alloc]
      have hlen : (TableHeap.mk ([raw] ++ [raw])).tables.length = 2 := rfl
      have hself := cleanFold_read_self (raw.cols.filter isTimeCol) 1
        (TableHeap.mk ([raw] ++ [raw])) (by rw [hlen]; omega)
      have hread1 : (TableHeap.mk ([raw] ++ [raw])).read 1 = raw := rfl
      rw [List.length_cons, List.length_nil]
      rw [hself, hread1]
      simp only [Except.ok.injEq]
      constructor
      · intro he
        exact ⟨h1, by simpa [timeCols] using h2', by rw [← he]; rfl⟩
      · rintro ⟨-, -, he⟩
        rw [he]; rfl
  · rw [if_neg h1]
    constructor
    · intro he; exact absurd he (by simp)
    · rintro ⟨ha, -, -⟩; exact absurd ha h1

theorem cleanColumn_cols (t : RawTable) (c : String) : (cleanColumn t c).cols = t.cols := by
  unfold cleanColumn
  cases colIdx t.cols c <;> rfl

theorem cleanColumn_rows_length (t : RawTable) (c : String) :
    (cleanColumn t c).rows.length = t.rows.length := by
  unfold cleanColumn
  cases colIdx t.cols c <;> simp

theorem foldl_cleanColumn_cols (cs : List String) :
    ∀ (t : RawTable), (cs.foldl cleanColumn t).cols = t.cols := by
  induction cs with
  | nil => intro t; rfl
  | cons c cs ih => intro t; rw [List.foldl_cons, ih, cleanColumn_cols]

theorem foldl_cleanColumn_rows_length (cs : List String) :
    ∀ (t : RawTable), (cs.foldl cleanColumn t).rows.length = t.rows.length := by
  induction cs with
  | nil => intro t; rfl
  | cons c cs ih => intro t; rw [List.foldl_cons, ih, cleanColumn_rows_length]

theorem cleanTable_rows_length (raw : RawTable) :
    (cleanTable raw).rows.length = raw.rows.length :=
  foldl_cleanColumn_rows_length (timeCols raw) raw

theorem sum_map_const {α : Type} (l : List α) (n : Nat) :
    (l.map (fun _ => n)).sum = l.length * n := by
  induction l with
  | nil => simp
  | cons a t ih => simp [ih, Nat.succ_mul, Nat.add_comm]

theorem meltRows_length (df : RawTable) (tcs : List String) :
    (meltRows df tcs).length = tcs.length * df.rows.length := by
  unfold meltRows
  rw [List.length_flatMap]
  simp only [Function.comp_def, List.length_map]
  exact sum_map_const tcs df.rows.length

/-! ## Order facts for the sort comparisons -/

theorem strLt_data_iff (a b : String) : a.data < b.data ↔ a < b := by
  rw [String.lt_iff_toList_lt]
  exact Iff.rfl

theorem lex_eq_level (x y : String) (h : x = y) (P : Prop) :
    (x < y ∨ (x = y ∧ P)) ↔ P := by
  subst h
  simp [lt_irrefl]

theorem lex_neq_level (x y : String) (h : ¬ x = y) (P : Prop) :
    (decide (x.data < y.data) = true) ↔ (x < y ∨ (x = y ∧ P)) := by
  rw [decide_eq_true_eq]
  constructor
  · intro hlt
    exact Or.inl ((strLt_data_iff x y).mp hlt)
  · rintro (hlt | ⟨he, -⟩)
    · exact (strLt_data_iff x y).mpr hlt
    · exact absurd he h

/-- The executable comparison decides exactly the lexicographic `rowKey`
order used in the statement of the sort contract. -/
theorem tidyLe_iff (a b : TidyRow) : tidyLe a b = true ↔ rowKey a ≤ rowKey b := by
  unfold tidyLe rowKey
  rw [Prod.Lex.le_iff]
  by_cases h1 : a.day_type = b.day_type
  · rw [if_pos h1, lex_eq_level _ _ h1, Prod.Lex.le_iff]
    by_cases h2 : a.line = b.line
    · rw [if_pos h2, lex_eq_level _ _ h2, Prod.Lex.le_iff]
      by_cases h3 : a.station_code = b.station_code
      · rw [if_pos h3, lex_eq_level _ _ h3, Prod.Lex.le_iff]
        by_cases h4 : a.direction = b.direction
        · rw [if_pos h4, lex_eq_level _ _ h4]
          exact decide_eq_true_iff
        · rw [if_neg h4]
          exact lex_neq_level _ _ h4 _
      · rw [if_neg h3]
        exact lex_neq_level _ _ h3 _
    · rw [if_neg h2]
      exact lex_neq_level _ _ h2 _
  · rw [if_neg h1]
    exact lex_neq_level _ _ h1 _

theorem tidyLe_total (a b : TidyRow) : tidyLe a b = true ∨ tidyLe b a = true := by
  rw [tidyLe_iff, tidyLe_iff]
  exact le_total (rowKey a) (rowKey b)

theorem tidyLe_trans (a b c : TidyRow) (h1 : tidyLe a b = true) (h2 : tidyLe b c = true) :
    tidyLe a c = true := by
  rw [tidyLe_iff] at h1 h2 ⊢
  exact le_trans h1 h2

theorem tidyLe_of_key_eq (a b : TidyRow) (h : rowKey a = rowKey b) : tidyLe a b = true := by
  rw [tidyLe_iff, h]

theorem avgDescLe_total (a b : Option ℚ) : avgDescLe a b = true ∨ avgDescLe b a = true := by
  cases a <;> cases b <;> simp [avgDescLe]
  exact le_total _ _

theorem avgDescLe_trans (a b c : Option ℚ) (h1 : avgDescLe a b = true)
    (h2 : avgDescLe b c = true) : avgDescLe a c = true := by
  cases a <;> cases b <;> cases c <;> simp [avgDescLe] at h1 h2 ⊢
  exact le_trans h2 h1

theorem avgDescLe_refl (a : Option ℚ) : avgDescLe a a = true := by
  cases a <;> simp [avgDescLe]

theorem rankLe_total (a b : RankEntry) : rankLe a b = true ∨ rankLe b a = true :=
  avgDescLe_total a.avg_crowding b.avg_crowding

theorem rankLe_trans (a b c : RankEntry) (h1 : rankLe a b = true) (h2 : rankLe b c = true) :
    rankLe a c = true :=
  avgDescLe_trans a.avg_crowding b.avg_crowding c.avg_crowding h1 h2

/-! ## Lemmas about `enum` -/

theorem enumFrom_map_fst_add_one {α : Type} :
    ∀ (k : Nat) (l : List α), (List.enumFrom k l).map (fun p => p.1 + 1) = List.range' (k + 1) l.length
  | _, [] => rfl
  | k, a :: t => by
    simp only [List.enumFrom, List.map_cons, List.length_cons]
    rw [enumFrom_map_fst_add_one (k + 1) t]
    rfl

theorem enum_map_fst_add_one {α : Type} (l : List α) :
    l.enum.map (fun p => p.1 + 1) = List.range' 1 l.length :=
  enumFrom_map_fst_add_one 0 l

theorem enumFrom_filter_map_snd {α β : Type} (g : α → β) (p : α → Bool) :
    ∀ (k : Nat) (l : List α),
      (((List.enumFrom k l).filter (fun q => p q.2)).map (fun q => g q.2)) = (l.filter p).map g
  | _, [] => rfl
  | k, a :: t => by
    by_cases hp : p a = true
    · simp [List.enumFrom, List.filter_cons, hp, enumFrom_filter_map_snd g p (k + 1) t]
    · simp [List.enumFrom, List.filter_cons, Bool.eq_false_iff.mpr hp,
        enumFrom_filter_map_snd g p (k + 1) t]

/-! ## Lemmas about the quality counts -/

theorem dupCountAux_eq_zero (l : List TidyRow) :
    ∀ seen, dupCountAux seen l = 0 ↔
      ((l.map key6).Nodup ∧ ∀ k ∈ l.map key6, k ∉ seen) := by
  induction l with
  | nil => intro seen; simp [dupCountAux]
  | cons r rs ih =>
    intro seen
    have hsplit : dupCountAux seen (r :: rs) = 0 ↔
        (key6 r ∉ seen ∧ dupCountAux (key6 r :: seen) rs = 0) := by
      by_cases hin : key6 r ∈ seen
      · simp only [dupCountAux, if_pos hin]
        constructor
        · intro h; omega
        · rintro ⟨h, -⟩; exact absurd hin h
      · simp only [dupCountAux, if_neg hin, Nat.zero_add]
        exact (and_iff_right hin).symm
    rw [hsplit, ih (key6 r :: seen)]
    simp only [List.map_cons, List.nodup_cons, List.mem_cons, not_or]
    constructor
    · rintro ⟨hnotin, hnd, hall⟩
      refine ⟨⟨?_, hnd⟩, ?_⟩
      · intro hmem
        exact (hall _ hmem).1 rfl
      · intro k hk
        rcases hk with rfl | hk'
        · exact hnotin
        · exact (hall k hk').2
    · rintro ⟨⟨hnotmem, hnd⟩, hall⟩
      refine ⟨(hall _ (Or.inl rfl)), hnd, ?_⟩
      intro k hk
      exact ⟨fun he => hnotmem (he ▸ hk), hall k (Or.inr hk)⟩

theorem dupCount_eq_zero_iff (t : List TidyRow) :
    dupCount t = 0 ↔ (t.map key6).Nodup := by
  rw [dupCount, dupCountAux_eq_zero t []]
  simp

theorem negCount_eq_zero_iff (t : List TidyRow) :
    negCount t = 0 ↔ ∀ r ∈ t, 0 ≤ r.crowding.getD 0 := by
  unfold negCount
  rw [List.countP_eq_zero]
  constructor
  · intro h r hr
    have hneg := h r hr
    cases hc : r.crowding with
    | none => simp [hc]
    | some q =>
      rw [hc] at hneg
      simp only [decide_eq_true_eq] at hneg
      simpa [hc] using le_of_not_lt hneg
  · intro h r hr
    have hle := h r hr
    cases hc : r.crowding with
    | none => simp [hc]
    | some q =>
      rw [hc] at hle
      simp only [Option.getD_some] at hle
      simpa [hc] using hle

/-- The coded degenerate-group test of one group is equivalent to "every
row of the group carries exactly the crowding value 0 (and none is
missing)". -/
theorem groupAllZero_iff (t : List TidyRow) (k : String × String × String × String × String) :
    (groupAllZero ((groupRows t k).map (fun r => r.crowding)) = true) ↔
      ∀ r ∈ t, gkey5 r = k → r.crowding = some 0 := by
  unfold groupAllZero groupRows
  simp only [Bool.and_eq_true, List.all_eq_true, List.mem_map, List.mem_filter,
    decide_eq_true_eq]
  constructor
  · rintro ⟨-, h2⟩ r hr hk
    exact h2 (r.crowding) ⟨r, ⟨hr, hk⟩, rfl⟩
  · intro h
    constructor
    · rintro v ⟨r, ⟨hr, hk⟩, rfl⟩
      rw [h r hr hk]
      rfl
    · rintro v ⟨r, ⟨hr, hk⟩, rfl⟩
      exact h r hr hk

/-! ## Lemmas about stripping appended whitespace -/

theorem dropWhile_append_all {p : Char → Bool} :
    ∀ (a l : List Char), (∀ c ∈ a, p c = true) → (a ++ l).dropWhile p = l.dropWhile p
  | [], l, _ => rfl
  | x :: xs, l, h => by
    have hx : p x = true := h x (List.mem_cons_self x xs)
    simp only [List.cons_append, List.dropWhile_cons, hx, if_pos]
    exact dropWhile_append_all xs l (fun c hc => h c (List.mem_cons_of_mem x hc))

theorem dropWhile_all_nil {p : Char → Bool} :
    ∀ (l : List Char), (∀ c ∈ l, p c = true) → l.dropWhile p = [] := by
  intro l h
  have := dropWhile_append_all l [] h
  simpa using this

theorem dropWhile_append_of_ne_nil {p : Char → Bool} :
    ∀ (l r : List Char), l.dropWhile p ≠ [] → (l ++ r).dropWhile p = l.dropWhile p ++ r
  | [], r, h => absurd rfl h
  | x :: xs, r, h => by
    by_cases hx : p x = true
    · simp only [List.cons_append, List.dropWhile_cons, hx, if_pos] at h ⊢
      exact dropWhile_append_of_ne_nil xs r h
    · have hx' : p x = false := Bool.eq_false_iff.mpr hx
      simp [List.cons_append, List.dropWhile_cons, hx']

theorem dropWhile_nil_append {p : Char → Bool} :
    ∀ (l r : List Char), l.dropWhile p = [] → (l ++ r).dropWhile p = r.dropWhile p
  | [], r, _ => rfl
  | x :: xs, r, h => by
    by_cases hx : p x = true
    · simp only [List.cons_append, List.dropWhile_cons, hx, if_pos] at h ⊢
      exact dropWhile_nil_append xs r h
    · have hx' : p x = false := Bool.eq_false_iff.mpr hx
      rw [List.dropWhile_cons, if_neg (by simp [hx'])] at h
      exact absurd h (by simp)

/-- Surrounding whitespace does not change the result of a strip. -/
theorem stripL_pad (a s b : List Char)
    (ha : ∀ c ∈ a, isPySpace c = true) (hb : ∀ c ∈ b, isPySpace c = true) :
    stripL (a ++ s ++ b) = stripL s := by
  unfold stripL
  rw [List.append_assoc, dropWhile_append_all a (s ++ b) ha]
  by_cases hs : s.dropWhile isPySpace = []
  · rw [dropWhile_nil_append s b hs, dropWhile_all_nil b hb, hs]
  · rw [dropWhile_append_of_ne_nil s b hs]
    rw [List.reverse_append]
    rw [dropWhile_append_all b.reverse (s.dropWhile isPySpace).reverse
      (fun c hc => hb c (List.mem_reverse.mp hc))]

/-! ## Claim theorems -/

/-- C10: `to_tidy_long` does not mutate its input table.  Running the body
on any heap leaves the table at the input's address — its columns and every
cell — exactly as it was: the cleaning loop writes only to the fresh
`df_raw.copy()` allocation. -/
theorem to_tidy_long_no_mutation (m : TableHeap) (a : Nat) (h : a < m.tables.length) :
    ((to_tidy_long_mem m a).1).read a = m.read a := by
  unfold to_tidy_long_mem
  simp only [TableHeap.alloc]
  by_cases h1 : (base_cols.filter (fun c => !(decide (c ∈ (m.read a).cols)))).isEmpty = true
  · rw [if_pos h1]
    by_cases h2 : ((m.read a).cols.filter isTimeCol).isEmpty = true
    · rw [if_pos h2]
    · rw [if_neg h2]
      have hne : a ≠ m.tables.length := Nat.ne_of_lt h
      rw [cleanFold_read_other _ a m.tables.length hne]
      show (TableHeap.mk (m.tables ++ [m.read a])).read a = m.read a
      simp [TableHeap.read, List.getD_eq_getElem?_getD, List.getElem?_append_left h]
  · rw [if_neg h1]

/-- C10 witness: at a concrete one-table heap, the input slot is unchanged
by the run. -/
theorem to_tidy_long_no_mutation_witness :
    ((to_tidy_long_mem ⟨[demoRawA]⟩ 0).1).read 0 = (TableHeap.mk [demoRawA]).read 0 :=
  to_tidy_long_no_mutation ⟨[demoRawA]⟩ 0 (by decide)

/-- C4: for every raw table accepted by `to_tidy_long`, the tidy output has
exactly (number of raw rows) × (number of detected time columns) rows. -/
theorem to_tidy_long_row_count (raw : RawTable) (t : List TidyRow)
    (h : to_tidy_long raw = Except.ok t) :
    t.length = raw.rows.length * (timeCols raw).length := by
  obtain ⟨-, -, rfl⟩ := (to_tidy_long_ok_iff raw t).mp h
  rw [(isortBy_perm tidyLe (meltPre raw)).length_eq]
  rw [meltPre, meltRows_length]
  rw [cleanTable_rows_length]
  exact Nat.mul_comm _ _

/-- C4 witness: the 2-row, 2-time-column table yields 4 tidy rows. -/
theorem to_tidy_long_row_count_witness :
    demoTidyA.length = demoRawA.rows.length * (timeCols demoRawA).length :=
  to_tidy_long_row_count demoRawA demoTidyA rfl

/-- C2: every tidy table produced by `to_tidy_long` is sorted ascending by
the five-key (day_type, line, station_code, direction, time_order), the
sort is stable (rows with equal keys keep their pre-sort melt order), and
the output is a re-indexed permutation of the melted rows. -/
theorem to_tidy_long_sorted_stable (raw : RawTable) (t : List TidyRow)
    (h : to_tidy_long raw = Except.ok t) :
    t.Pairwise (fun a b => rowKey a ≤ rowKey b)
    ∧ (∀ k, t.filter (fun r => decide (rowKey r = k)) =
        (meltPre raw).filter (fun r => decide (rowKey r = k)))
    ∧ List.Perm t (meltPre raw) := by
  obtain ⟨-, -, rfl⟩ := (to_tidy_long_ok_iff raw t).mp h
  refine ⟨?_, ?_, isortBy_perm tidyLe (meltPre raw)⟩
  · exact (isortBy_pairwise tidyLe tidyLe_total tidyLe_trans (meltPre raw)).imp
      (fun hab => (tidyLe_iff _ _).mp hab)
  · intro k
    refine isortBy_filter tidyLe (fun r => decide (rowKey r = k)) tidyLe_total tidyLe_trans
      ?_ (meltPre raw)
    intro a b ha hb
    have h1 := of_decide_eq_true ha
    have h2 := of_decide_eq_true hb
    exact tidyLe_of_key_eq a b (by rw [h1, h2])

/-- C2 witness: the concrete tidy table is a permutation of the melt of its
raw table (and by the theorem it is sorted and stable). -/
theorem to_tidy_long_sorted_stable_witness :
    List.Perm demoTidyA (meltPre demoRawA) :=
  (to_tidy_long_sorted_stable demoRawA demoTidyA rfl).2.2

/-- C5: on a raw table with distinct column names, the `time_order` map
sends the i-th detected time column to exactly `i` (a permutation of
`0..N-1` in original left-to-right order), it is injective, and every tidy
row's `time_order` is below the number of detected time columns. -/
theorem time_order_assignment (raw : RawTable) (t : List TidyRow)
    (hnd : raw.cols.Nodup) (h : to_tidy_long raw = Except.ok t) :
    (∀ i (hi : i < (timeCols raw).length),
        dictIndex (timeCols raw) ((timeCols raw).get ⟨i, hi⟩) = some i)
    ∧ (∀ i j (hi : i < (timeCols raw).length) (hj : j < (timeCols raw).length),
        dictIndex (timeCols raw) ((timeCols raw).get ⟨i, hi⟩) =
          dictIndex (timeCols raw) ((timeCols raw).get ⟨j, hj⟩) → i = j)
    ∧ (∀ r ∈ t, r.time_order < (timeCols raw).length) := by
  have hndt : (timeCols raw).Nodup := hnd.filter _
  refine ⟨fun i hi => dictIndex_get _ hndt i hi, ?_, ?_⟩
  · intro i j hi hj he
    rw [dictIndex_get _ hndt i hi, dictIndex_get _ hndt j hj] at he
    exact Option.some.inj he
  · obtain ⟨-, -, rfl⟩ := (to_tidy_long_ok_iff raw t).mp h
    intro r hr
    have hmem : r ∈ meltPre raw := (isortBy_perm tidyLe (meltPre raw)).mem_iff.mp hr
    rw [meltPre, meltRows] at hmem
    obtain ⟨c, hc, hr2⟩ := List.mem_flatMap.mp hmem
    obtain ⟨row, hrow, rfl⟩ := List.mem_map.mp hr2
    obtain ⟨j, hj, hjl⟩ := dictIndex_mem c (timeCols raw) hc
    show ((dictIndex (timeCols raw) c).getD 0) < (timeCols raw).length
    rw [hj]
    exact hjl

/-- C5 witness: in the concrete table the first detected time column gets
order 0. -/
theorem time_order_assignment_witness :
    dictIndex (timeCols demoRawA) ((timeCols demoRawA).get ⟨0, by decide⟩) = some 0 :=
  (time_order_assignment demoRawA demoTidyA (by decide) rfl).1 0 (by decide)

/-- C1 counterexample: the pattern requires exactly two minute digits, so
`"0시0분"` and `"8시0분"` are not detected as time columns, and the spec's
scenario row produces exactly one tidy row (for `"7시30분"` only), not the
claimed two. -/
theorem timecol_roundtrip_counterexample :
    isTimeCol "0시0분" = false ∧ isTimeCol "8시0분" = false ∧
      to_tidy_long scenarioRaw =
        Except.ok [⟨"평일", "2호선", "222", "강남", "내선", "07:30", 0, some 150⟩] :=
  ⟨rfl, rfl, rfl⟩

/-- C1 amended: for every time-column name with a one-or-two-digit hour and
an exactly-two-digit minute (`h < 100`, `m < 100` rendered zero-padded),
the column is detected, the hour and minute are recovered exactly, and the
canonical zero-padded `"HH:MM"` label is rendered. -/
theorem timecol_roundtrip_amended (h m : Nat) (hh : h < 100) (hm : m < 100) :
    isTimeCol (Nat.repr h ++ "시" ++ pad2 m ++ "분") = true
    ∧ parseTimeCol (Nat.repr h ++ "시" ++ pad2 m ++ "분") = some (h, m)
    ∧ timecol_to_hhmm (Nat.repr h ++ "시" ++ pad2 m ++ "분") = some (hhmmLabel h m) := by
  obtain ⟨ha1, ha2, ha3, ha4⟩ := repr_digits h hh
  obtain ⟨hb1, hb2, hb3⟩ := pad2_digits m hm
  have hdata : (Nat.repr h ++ "시" ++ pad2 m ++ "분").data =
      (Nat.repr h).data ++ '시' :: ((pad2 m).data ++ ['분']) := by
    simp [String.data_append]
  have hp := parseTimeCol_build (Nat.repr h ++ "시" ++ pad2 m ++ "분")
    (Nat.repr h).data ((pad2 m).data) hdata
    (fun c hc => List.all_eq_true.mp ha1 c hc) ha2 ha3
    (fun c hc => List.all_eq_true.mp hb1 c hc) hb2
  rw [ha4, hb3] at hp
  refine ⟨?_, hp, ?_⟩
  · rw [isTimeCol, hp]
    rfl
  · rw [timecol_to_hhmm, hp]
    rfl

/-- C1 witness: the amended round trip at `"7시30분"`. -/
theorem timecol_roundtrip_witness :
    parseTimeCol (Nat.repr 7 ++ "시" ++ pad2 30 ++ "분") = some (7, 30) :=
  (timecol_roundtrip_amended 7 30 (by decide) (by decide)).2.1

/-- C6 counterexample: a group holding one zero and one missing value has
all its non-null crowding values equal to zero, so the claim counts it, but
the coded check (`s.notna().all() and (s == 0).all()`) does not. -/
theorem allzero_claim_counterexample :
    (quality_report zeroNullT).all_time_zero_station_direction_rows = 0 ∧
      allZeroGroups_specClaim zeroNullT = 1 := by
  constructor <;> rfl

/-- C6 amended: the degenerate-group count of `quality_report` equals the
number of distinct five-key groups in which every row's crowding is present
and exactly zero (a group containing any missing value is not counted); and
such groups are advisory only — the pass verdict is a function of the
duplicate and negative counts alone. -/
theorem allzero_groups_amended :
    (∀ t : List TidyRow,
      (quality_report t).all_time_zero_station_direction_rows =
        (distinctList (t.map gkey5)).countP
          (fun k => decide (∀ r ∈ t, gkey5 r = k → r.crowding = some 0)))
    ∧ (∀ t₁ t₂ : List TidyRow,
        (quality_report t₁).duplicate_key_rows = (quality_report t₂).duplicate_key_rows →
        (quality_report t₁).negative_crowding_count =
          (quality_report t₂).negative_crowding_count →
        phase1_passed (quality_report t₁) = phase1_passed (quality_report t₂)) := by
  constructor
  · intro t
    show allZeroGroupCount t = _
    unfold allZeroGroupCount
    rw [List.countP_eq_length_filter, List.countP_eq_length_filter]
    congr 1
    apply List.filter_congr
    intro k _
    by_cases hz : groupAllZero ((groupRows t k).map (fun r => r.crowding)) = true
    · rw [hz]
      exact (decide_eq_true ((groupAllZero_iff t k).mp hz)).symm
    · rw [Bool.eq_false_iff.mpr hz]
      symm
      exact decide_eq_false (fun hp => hz ((groupAllZero_iff t k).mpr hp))
  · intro t₁ t₂ h1 h2
    show (decide ((quality_report t₁).duplicate_key_rows = 0) &&
        decide ((quality_report t₁).negative_crowding_count = 0)) =
      (decide ((quality_report t₂).duplicate_key_rows = 0) &&
        decide ((quality_report t₂).negative_crowding_count = 0))
    rw [h1, h2]

/-- C6 witness: two tables with equal duplicate and negative counts get the
same verdict although their all-zero-group counts differ. -/
theorem allzero_groups_amended_witness :
    phase1_passed (quality_report ([] : List TidyRow)) =
      phase1_passed (quality_report allZeroT) :=
  allzero_groups_amended.2 [] allZeroT rfl rfl

/-- C7: the Phase 1 verdict is true exactly when the tidy table has no
duplicated six-key and no negative crowding value; the over-200 count and
the all-zero-group count do not enter the verdict. -/
theorem phase1_verdict_iff (t : List TidyRow) :
    phase1_passed (quality_report t) = true ↔
      ((t.map key6).Nodup ∧ ∀ r ∈ t, 0 ≤ r.crowding.getD 0) := by
  show (dupCount t == 0 && negCount t == 0) = true ↔ _
  rw [Bool.and_eq_true, beq_iff_eq, beq_iff_eq]
  rw [dupCount_eq_zero_iff, negCount_eq_zero_iff]

/-- C7 witness: a duplicate-free, non-negative concrete table passes. -/
theorem phase1_verdict_witness : phase1_passed (quality_report zeroNullT) = true :=
  (phase1_verdict_iff zeroNullT).mpr (by decide)

/-- C8: cell cleaning is insensitive to surrounding whitespace, maps the
empty string and the literal `"nan"`/`"None"` tokens to null, turns exactly
the parseable remainder into numbers and every unparseable remainder into
null, and — because every cell outcome is a value, never an error — a run
of `to_tidy_long` on a table with the required identity columns and at
least one time column succeeds whatever the cells contain. -/
theorem cell_cleaning_total :
    (∀ a s b : String, (∀ c ∈ a.data, isPySpace c = true) →
        (∀ c ∈ b.data, isPySpace c = true) → cleanCell (a ++ s ++ b) = cleanCell s)
    ∧ cleanCell "" = none
    ∧ cleanCell "nan" = none
    ∧ cleanCell "None" = none
    ∧ (∀ s : String, parseNumeric (pyStrip s) = none → cleanCell s = none)
    ∧ (∀ s : String, ∀ q : ℚ, cleanCell s = some q → parseNumeric (pyStrip s) = some q)
    ∧ (∀ raw : RawTable, (∀ c ∈ base_cols, c ∈ raw.cols) →
        (∃ c ∈ raw.cols, isTimeCol c = true) → ∃ t, to_tidy_long raw = Except.ok t) := by
  refine ⟨?_, rfl, rfl, rfl, ?_, ?_, ?_⟩
  · intro a s b ha hb
    have hstrip : pyStrip (a ++ s ++ b) = pyStrip s := by
      show (⟨stripL (a ++ s ++ b).data⟩ : String) = ⟨stripL s.data⟩
      rw [String.data_append, String.data_append]
      rw [stripL_pad a.data s.data b.data ha hb]
    simp only [cleanCell, hstrip]
  · intro s hps
    simp only [cleanCell]
    split_ifs <;> first | rfl | exact hps
  · intro s q hq
    simp only [cleanCell] at hq
    split_ifs at hq
    exact hq
  · intro raw hid htc
    refine ⟨isortBy tidyLe (meltPre raw), (to_tidy_long_ok_iff raw _).mpr ⟨?_, ?_, rfl⟩⟩
    · rw [List.isEmpty_iff, List.filter_eq_nil_iff]
      intro c hc
      simp [hid c hc]
    · obtain ⟨c, hc, htc2⟩ := htc
      cases hv : (timeCols raw).isEmpty with
      | false => rfl
      | true =>
        exfalso
        rw [List.isEmpty_iff] at hv
        have hmem : c ∈ timeCols raw := List.mem_filter.mpr ⟨hc, htc2⟩
        rw [hv] at hmem
        exact List.not_mem_nil c hmem

/-- C8 witness: whitespace-padded numeral cleaned like the bare numeral,
and a concrete well-formed table goes through without an error. -/
theorem cell_cleaning_total_witness :
    cleanCell (" " ++ "12" ++ " ") = cleanCell "12" ∧
      ∃ t, to_tidy_long demoRawA = Except.ok t :=
  ⟨cell_cleaning_total.1 " " "12" " " (by decide) (by decide),
   cell_cleaning_total.2.2.2.2.2.2 demoRawA (by decide) (by decide)⟩

/-- C9: `calculate_kpi` returns the `none` sentinel exactly on an empty
selection; on a non-empty selection it returns a populated record whose
morning/evening rush averages are the number `0` (not null) whenever the
rush window matches no rows. -/
theorem calculate_kpi_sentinel (df : List TidyRow) (d l dir : String) :
    ((kpiFilter df d l dir).isEmpty = true → calculate_kpi df d l dir = none)
    ∧ ((kpiFilter df d l dir).isEmpty = false →
        ∃ k, calculate_kpi df d l dir = some k
          ∧ (((kpiFilter df d l dir).filter
                (fun r => decide (r.time_label ∈ RUSH_HOUR_MORNING))).isEmpty = true →
              k.morning_avg = some 0)
          ∧ (((kpiFilter df d l dir).filter
                (fun r => decide (r.time_label ∈ RUSH_HOUR_EVENING))).isEmpty = true →
              k.evening_avg = some 0)) := by
  constructor
  · intro he
    unfold calculate_kpi
    rw [if_pos he]
  · intro hne
    unfold calculate_kpi
    rw [if_neg (by rw [hne]; exact Bool.false_ne_true)]
    refine ⟨_, rfl, ?_, ?_⟩
    · intro hm
      dsimp only
      rw [if_pos hm]
    · intro hm
      dsimp only
      rw [if_pos hm]

/-- C9 witness: an empty selection yields the sentinel and a populated
selection yields a record. -/
theorem calculate_kpi_sentinel_witness :
    calculate_kpi kpiDemo "토요일" "2호선" "내선" = none ∧
      (calculate_kpi kpiDemo "평일" "2호선" "내선").isSome = true := by
  constructor
  · exact (calculate_kpi_sentinel kpiDemo "토요일" "2호선" "내선").1 (by decide)
  · obtain ⟨k, hk, -, -⟩ := (calculate_kpi_sentinel kpiDemo "평일" "2호선" "내선").2 (by decide)
    rw [hk]
    rfl

/-- C3 counterexample: on a tidy table whose single matched group has only
missing crowding values, `idxmax` finds no non-null value and the
subsequent `group.loc[...]` label lookup raises `KeyError`, so the ranking
raises instead of returning a result — contradicting the claim that it
returns (at most `top_n` sorted, ranked entries) for every tidy table. -/
theorem ranking_claim_counterexample :
    calculate_rush_hour_ranking nanGroupT "평일" "morning" 5 =
      Except.error "KeyError: nan" := rfl

/-- C3 amended: whenever the grouping loop completes (every matched group
has a non-missing crowding value), every output the unstable descending
sort can produce — any permutation of the group entries ordered by mean
crowding descending, missing means last, truncated to `top_n` and ranked —
has at most `top_n` entries, `rank` fields forming the contiguous sequence
`1..len`, and is pairwise descending by mean crowding; the executable
model is one such admissible output.  No order among entries with equal
mean crowding is asserted: the source's single-column `sort_values` uses a
sort whose tie order is unspecified. -/
theorem ranking_sorted_ranked (df : List TidyRow) (day ty : String) (n : Nat) :
    (∀ entries, rush_groups df day ty = Except.ok entries →
      ∀ res, ranking_admissible entries n res →
        res.length ≤ n
        ∧ res.map (fun e => e.rank) = List.range' 1 res.length
        ∧ res.Pairwise (fun a b => avgDescLe a.avg_crowding b.avg_crowding = true))
    ∧ (∀ res, calculate_rush_hour_ranking df day ty n = Except.ok res →
        ∃ entries, rush_groups df day ty = Except.ok entries
          ∧ ranking_admissible entries n res)
    ∧ (∀ entries, rush_groups df day ty = Except.ok entries →
        calculate_rush_hour_ranking df day ty n = Except.ok (rankingOf entries n)) := by
  have hmain : ∀ s : List RankEntry, s.Pairwise (fun a b => rankLe a b = true) →
      ∀ res : List RankEntry,
        res = ((s.take n).enum).map (fun p : Nat × RankEntry => { p.2 with rank := p.1 + 1 }) →
        res.length ≤ n
        ∧ res.map (fun e => e.rank) = List.range' 1 res.length
        ∧ res.Pairwise (fun a b => avgDescLe a.avg_crowding b.avg_crowding = true) := by
    intro s hsort res hres
    have hlen : res.length = (s.take n).length := by
      rw [hres, List.length_map, List.enum_length]
    refine ⟨?_, ?_, ?_⟩
    · rw [hlen, List.length_take]
      exact Nat.min_le_left n s.length
    · have h1 : ((fun e : RankEntry => e.rank) ∘
          (fun p : Nat × RankEntry => { p.2 with rank := p.1 + 1 })) =
          (fun p : Nat × RankEntry => p.1 + 1) := rfl
      rw [hlen, hres, List.map_map, h1]
      exact enum_map_fst_add_one (s.take n)
    · have htake : (s.take n).Pairwise (fun a b => rankLe a b = true) :=
        List.Pairwise.sublist (List.take_sublist n s) hsort
      have havg : res.map (fun e => e.avg_crowding) =
          (s.take n).map (fun e => e.avg_crowding) := by
        rw [hres, List.map_map]
        have h1 : ((fun e : RankEntry => e.avg_crowding) ∘
            (fun p : Nat × RankEntry => { p.2 with rank := p.1 + 1 })) =
            ((fun e : RankEntry => e.avg_crowding) ∘ Prod.snd) := rfl
        rw [h1, ← List.map_map, List.enum_map_snd]
      have hm : (res.map (fun e => e.avg_crowding)).Pairwise
          (fun x y => avgDescLe x y = true) := by
        rw [havg]
        exact List.pairwise_map.mpr (htake.imp (fun hab => hab))
      exact List.pairwise_map.mp hm
  have hrg_empty : (rushRows df day ty).isEmpty = true →
      rush_groups df day ty = Except.ok [] := by
    intro hemp
    unfold rush_groups
    rw [List.isEmpty_iff] at hemp
    rw [hemp]
    rfl
  refine ⟨?_, ?_, ?_⟩
  · rintro entries - res ⟨s, -, hsort, hres⟩
    exact hmain s hsort res hres
  · intro res hres
    unfold calculate_rush_hour_ranking at hres
    by_cases hemp : (rushRows df day ty).isEmpty = true
    · rw [if_pos hemp] at hres
      have hres0 : res = [] := (Except.ok.inj hres).symm
      refine ⟨[], hrg_empty hemp, [], List.Perm.refl [], List.Pairwise.nil, ?_⟩
      rw [hres0]
      simp
    · rw [if_neg hemp] at hres
      cases hrg : rush_groups df day ty with
      | error e =>
        rw [hrg] at hres
        exact Except.noConfusion hres
      | ok entries =>
        rw [hrg] at hres
        have hre : rankingOf entries n = res := Except.ok.inj hres
        exact ⟨entries, rfl, isortBy rankLe entries, isortBy_perm rankLe entries,
          isortBy_pairwise rankLe rankLe_total rankLe_trans entries, hre.symm⟩
  · intro entries hent
    unfold calculate_rush_hour_ranking
    by_cases hemp : (rushRows df day ty).isEmpty = true
    · rw [if_pos hemp]
      have h0 : entries = [] := Except.ok.inj ((hent.symm).trans (hrg_empty hemp))
      rw [h0]
      simp [rankingOf, isortBy]
    · rw [if_neg hemp, hent]

/-- C3 witness: the amended ranking contract instantiated at concrete
inputs, discharging its hypotheses (an empty selection, whose grouping
trivially completes, and a populated selection on which the run returns
normally). -/
theorem ranking_sorted_ranked_witness :
    calculate_rush_hour_ranking kpiDemo "토요일" "all_day" 5 = Except.ok (rankingOf [] 5)
    ∧ ((rankingOf [] 5).length ≤ 5
        ∧ (rankingOf [] 5).map (fun e => e.rank) = List.range' 1 (rankingOf [] 5).length
        ∧ (rankingOf [] 5).Pairwise
            (fun a b => avgDescLe a.avg_crowding b.avg_crowding = true))
    ∧ (calculate_rush_hour_ranking kpiDemo "평일" "all_day" 5).isOk = true := by
  refine ⟨?_, ?_, ?_⟩
  · exact (ranking_sorted_ranked kpiDemo "토요일" "all_day" 5).2.2 [] rfl
  · exact (ranking_sorted_ranked kpiDemo "토요일" "all_day" 5).1 [] rfl (rankingOf [] 5)
      ⟨[], List.Perm.refl [], List.Pairwise.nil, rfl⟩
  · rfl
